import Mathlib

/-!
Verification of the interactive TUI session engine of `sgpt-rs`
(`src/tui/app.rs`, `src/tui/handler.rs`, `src/utils/unicode.rs`).

Rust `String`s are modelled as `List Char` (`RStr`).  Byte-level string
operations (`String::insert`, `String::remove`, slicing, `replace_range`)
are modelled faithfully over UTF-8 byte offsets: they return `none`
exactly when the Rust operation would panic (offset out of range or not
on a character boundary).  Every composite operation that performs such
byte-level work therefore returns an `Option`; `none` models a panic.
-/

/-- Rust `String` / `&str`, modelled as its sequence of Unicode scalar values. -/
abbrev RStr := List Char

/-- `String::len()`: the UTF-8 byte length of a string. -/
def utf8Len (s : RStr) : Nat := (s.map Char.utf8Size).sum

/-- `crate::utils::unicode::char_to_byte_index` (src/utils/unicode.rs):
byte index of the `n`-th character, or `s.len()` when `n` is past the end. -/
def char_to_byte_index (s : RStr) (n : Nat) : Nat :=
  match s, n with
  | [], _ => 0
  | _ :: _, 0 => 0
  | c :: rest, n + 1 => c.utf8Size + char_to_byte_index rest n

/-- Slicing a string at byte offset `b` into `(s[..b], s[b..])`.
`none` when `b` is not a character boundary or exceeds the byte length
(the Rust slice would panic). -/
def splitAtByte (s : RStr) (b : Nat) : Option (RStr × RStr) :=
  if b = 0 then some ([], s)
  else
    match s with
    | [] => none
    | c :: rest =>
      if b < c.utf8Size then none
      else (splitAtByte rest (b - c.utf8Size)).map (fun p => (c :: p.1, p.2))

/-- `String::insert(b, ch)`: `none` models the panic on an invalid byte index. -/
def insertAtByte (s : RStr) (b : Nat) (ch : Char) : Option RStr :=
  if b = 0 then some (ch :: s)
  else
    match s with
    | [] => none
    | c :: rest =>
      if b < c.utf8Size then none
      else (insertAtByte rest (b - c.utf8Size) ch).map (fun t => c :: t)

/-- `String::insert_str(b, t)`: `none` models the panic on an invalid byte index. -/
def insertStrAtByte (s : RStr) (b : Nat) (t : RStr) : Option RStr :=
  (splitAtByte s b).map (fun p => p.1 ++ t ++ p.2)

/-- `String::remove(b)`: removes the character starting at byte `b`;
`none` models the panic when `b ≥ len` or `b` is not a boundary. -/
def removeAtByte (s : RStr) (b : Nat) : Option RStr :=
  match s with
  | [] => none
  | c :: rest =>
    if b = 0 then some rest
    else if b < c.utf8Size then none
    else (removeAtByte rest (b - c.utf8Size)).map (fun t => c :: t)

/-- `String::replace_range(b1..b2, r)`: `none` models the panic when the
range is inverted or an endpoint is not a character boundary. -/
def replaceRangeBytes (s : RStr) (b1 b2 : Nat) (r : RStr) : Option RStr :=
  if b1 ≤ b2 then
    (splitAtByte s b1).bind (fun p =>
      (splitAtByte p.2 (b2 - b1)).map (fun q => p.1 ++ r ++ q.2))
  else none

/-- `char::is_whitespace`: the Unicode `White_Space` property. -/
def rustIsWhitespace (c : Char) : Bool :=
  let n := c.toNat
  (0x09 ≤ n && n ≤ 0x0D) || n = 0x20 || n = 0x85 || n = 0xA0 || n = 0x1680 ||
    (0x2000 ≤ n && n ≤ 0x200A) || n = 0x2028 || n = 0x2029 || n = 0x202F ||
    n = 0x205F || n = 0x3000

/-- `str::trim`: strip leading and trailing whitespace. -/
def rustTrim (s : RStr) : RStr :=
  ((s.dropWhile rustIsWhitespace).reverse.dropWhile rustIsWhitespace).reverse

/-- `str::contains(char)`. -/
def rcontainsChar (s : RStr) (c : Char) : Bool := s.any (fun d => d == c)

/-- First index (in characters) at which `needle` occurs in `haystack`.
Models `find_substring_char_index` (src/tui/app.rs), which calls
`str::find` (first byte-level occurrence) and converts the byte offset to
a character count.  A byte-level match of valid UTF-8 always starts on a
character boundary, so the first byte-level occurrence is the first
character-level occurrence. -/
def find_substring_char_index (haystack needle : RStr) : Option Nat :=
  if needle.isPrefixOf haystack then some 0
  else
    match haystack with
    | [] => none
    | _ :: rest => (find_substring_char_index rest needle).map (· + 1)

/-- `str::contains(&str)` (used by `cleanup_pending_pastes`). -/
def containsSub (haystack needle : RStr) : Bool :=
  (find_substring_char_index haystack needle).isSome

/-- `split_by_char_index` (src/tui/app.rs): split at a character index via
`char_to_byte_index`; the source returns `(String, &str)` from byte slices. -/
def split_by_char_index (s : RStr) (char_idx : Nat) : Option (RStr × RStr) :=
  if char_idx = 0 then some ([], s)
  else splitAtByte s (char_to_byte_index s char_idx)

/-- `str::split('\n')`-style split: always a non-empty list of parts. -/
def splitOnChar (sep : Char) : RStr → List RStr
  | [] => [[]]
  | c :: rest =>
    let r := splitOnChar sep rest
    if c = sep then [] :: r
    else
      match r with
      | h :: t => (c :: h) :: t
      | [] => [[c]]

/-- Strip one trailing `'\r'` (the final step of `str::lines`). -/
def stripTrailingCR (s : RStr) : RStr :=
  match s.getLast? with
  | some '\r' => s.dropLast
  | _ => s

/-- `str::lines`: split on `'\n'`, dropping a final empty segment and
stripping a trailing `'\r'` from each line. -/
def rustLines (s : RStr) : List RStr :=
  if s = [] then []
  else
    let parts := splitOnChar '\n' s
    let parts := if parts.getLast? = some [] then parts.dropLast else parts
    parts.map stripTrailingCR

/-- The ASCII decimal digit character for `d < 10`. -/
def digitChar (d : Nat) : Char := Char.ofNat (48 + d)

/-- Fuel-indexed decimal rendering (fuel ≥ n suffices). -/
def natDigitsAux : Nat → Nat → List Char
  | 0, _ => []
  | fuel + 1, n => if n < 10 then [digitChar n] else natDigitsAux fuel (n / 10) ++ [digitChar (n % 10)]

/-- Decimal rendering of a `usize`, as produced by `format!("{}", n)`. -/
def natDigits (n : Nat) : RStr := natDigitsAux (n + 1) n

/-- ASCII fragment of `char::to_lowercase` (the keyword matching in
`format_stream_error_message` only involves ASCII letters). -/
def rustToLowercaseChar (c : Char) : Char :=
  if 'A' ≤ c ∧ c ≤ 'Z' then Char.ofNat (c.toNat + 32) else c

/-- `str::to_lowercase`, character-wise (ASCII fragment). -/
def lowerStr (s : RStr) : RStr := s.map rustToLowercaseChar

/-- `is_word_char` (src/tui/app.rs): alphanumeric or underscore.
`Char.isAlphanum` models `char::is_alphanumeric`; only the pointwise
classification matters to the word-boundary functions. -/
def is_word_char (c : Char) : Bool := c.isAlphanum || c = '_'

/-- The backwards whitespace-skipping loop of `prev_word_boundary`
(`while i > 0 && chars[i].is_whitespace() { i -= 1 }`); indices are in
range at every call site, the `none` branch is unreachable. -/
def skipWsBack (cs : List Char) : Nat → Nat
  | 0 => 0
  | j + 1 =>
    match cs.get? (j + 1) with
    | some c => if rustIsWhitespace c then skipWsBack cs j else j + 1
    | none => j + 1

/-- The backwards word-run loop of `prev_word_boundary`. -/
def skipRunBack (cs : List Char) (cls : Bool) : Nat → Nat
  | 0 => 0
  | j + 1 =>
    match cs.get? j with
    | some p =>
      if rustIsWhitespace p then j + 1
      else if is_word_char p ≠ cls then j + 1
      else skipRunBack cs cls j
    | none => j + 1

/-- `prev_word_boundary` (src/tui/app.rs). -/
def prev_word_boundary (s : RStr) (cursor : Nat) : Nat :=
  if cursor = 0 then 0
  else
    let chars := s
    let i := min cursor chars.length
    if i = 0 then 0
    else
      let i := i - 1
      let i := skipWsBack chars i
      if i = 0 then 0
      else
        match chars.get? i with
        | some c => skipRunBack chars (is_word_char c) i
        | none => i

/-- The forward whitespace-skipping loop of `next_word_boundary`
(`while i < n && chars[i].is_whitespace() { i += 1 }`), fuelled by the
remaining length. -/
def skipWsFwd (cs : List Char) : Nat → Nat → Nat
  | 0, i => i
  | fuel + 1, i =>
    match cs.get? i with
    | some c => if rustIsWhitespace c then skipWsFwd cs fuel (i + 1) else i
    | none => i

/-- The forward word-run loop of `next_word_boundary`. -/
def skipRunFwd (cs : List Char) (cls : Bool) : Nat → Nat → Nat
  | 0, i => i
  | fuel + 1, i =>
    match cs.get? i with
    | some c =>
      if rustIsWhitespace c then i
      else if is_word_char c ≠ cls then i
      else skipRunFwd cs cls fuel (i + 1)
    | none => i

/-- `next_word_boundary` (src/tui/app.rs). -/
def next_word_boundary (s : RStr) (cursor : Nat) : Nat :=
  let chars := s
  let n := chars.length
  let i := min cursor n
  if n ≤ i then n
  else
    let i := skipWsFwd chars n i
    if n ≤ i then n
    else
      match chars.get? i with
      | some c => skipRunFwd chars (is_word_char c) n i
      | none => i

/-- `Vec<String>::join("\n")`-style join. -/
def joinWith (sep : RStr) : List RStr → RStr
  | [] => []
  | [x] => x
  | x :: xs => x ++ sep ++ joinWith sep xs

/-- `InputMode` (src/tui/app.rs). -/
inductive InputMode
  | Normal
  | MultiLine
deriving DecidableEq, Repr

/-- `InterpreterType` (src/process/mod.rs). -/
inductive InterpreterType
  | Python
  | R
deriving DecidableEq, Repr

/-- `Role` (src/llm/mod.rs). -/
inductive Role
  | System
  | User
  | Assistant
  | Tool
  | Developer
deriving DecidableEq, Repr

/-- `PopupState` (src/tui/app.rs). -/
inductive PopupState
  | none
  | executionResult (command output : RStr)
  | description (command description : RStr)
  | streamingDescription (command current_description : RStr) (is_loading : Bool)
deriving DecidableEq, Repr

/-- `App` (src/tui/app.rs).  `Instant` timestamps are modelled as
milliseconds (`Nat`); `chat_id`/`model` (only read by code outside the
modelled operations) are omitted; `messages` keeps each message's role
and content. -/
structure App where
  input : RStr := []
  input_cursor : Nat := 0
  input_mode : InputMode := .Normal
  multiline_buffer : List RStr := []
  input_history : List RStr := []
  history_index : Option Nat := none
  is_shell_mode : Bool := false
  interpreter : Option InterpreterType := none
  allow_interaction : Bool := false
  last_command : RStr := []
  current_response : RStr := []
  is_receiving_response : Bool := false
  message_queue : List RStr := []
  status_message : RStr := []
  show_help : Bool := false
  chat_scroll_offset : Nat := 0
  max_display_messages : Nat := 100
  popup_state : PopupState := .none
  collapsed_paste_content : Option RStr := none
  pending_pastes : List (RStr × RStr) := []
  last_ctrl_c_time : Option Nat := none
  messages : List (Role × RStr) := []
deriving DecidableEq, Repr

/-- The chat-mode initial state built by `App::new` (empty composer,
empty queue, no pending pastes). -/
def initialApp : App := { status_message := "Chat Mode | ctrl+h help".toList }

/-- `App::add_message`: push, prune to the display cap, scroll to bottom. -/
def App.add_message (a : App) (m : Role × RStr) : App :=
  let msgs := a.messages ++ [m]
  let msgs :=
    if a.max_display_messages < msgs.length then msgs.drop (msgs.length - a.max_display_messages)
    else msgs
  { a with messages := msgs, chat_scroll_offset := 0 }

/-- `App::start_response`. -/
def App.start_response (a : App) : App :=
  { a with current_response := [], is_receiving_response := true }

/-- `App::append_response`. -/
def App.append_response (a : App) (content : RStr) : App :=
  { a with current_response := a.current_response ++ content }

/-- `App::update_status_message`. -/
def App.update_status_message (a : App) : App :=
  let s : String :=
    match a.interpreter with
    | some .Python => "Python REPL: e=execute, r=repeat | ctrl+h help"
    | some .R => "R REPL: e=execute, r=repeat | ctrl+h help"
    | none =>
      if a.is_shell_mode then
        if a.allow_interaction then "Shell REPL: e=execute, r=repeat, d=describe | ctrl+h help"
        else "Shell Mode | ctrl+h help"
      else "Chat Mode | ctrl+h help"
  { a with status_message := s.toList }

/-- `App::finish_response`. -/
def App.finish_response (a : App) : App :=
  let a :=
    if a.current_response ≠ [] then
      let a2 := a.add_message (.Assistant, a.current_response)
      if a2.is_shell_mode ∨ a2.interpreter.isSome then
        { a2 with last_command := rustTrim a2.current_response }
      else a2
    else a
  ({ a with current_response := [], is_receiving_response := false }).update_status_message

/-- `App::clear_input`. -/
def App.clear_input (a : App) : App :=
  { a with input := [], input_cursor := 0, multiline_buffer := [],
           input_mode := .Normal, history_index := none }

/-- `App::get_input_text`. -/
def App.get_input_text (a : App) : RStr :=
  match a.input_mode with
  | .MultiLine => joinWith ['\n'] (a.multiline_buffer ++ [a.input])
  | .Normal => a.input

/-- `App::toggle_help`. -/
def App.toggle_help (a : App) : App := { a with show_help := !a.show_help }

/-- `App::scroll_up`. -/
def App.scroll_up (a : App) : App := { a with chat_scroll_offset := a.chat_scroll_offset + 1 }

/-- `App::scroll_down`. -/
def App.scroll_down (a : App) : App :=
  if 0 < a.chat_scroll_offset then { a with chat_scroll_offset := a.chat_scroll_offset - 1 } else a

/-- `App::scroll_to_bottom`. -/
def App.scroll_to_bottom (a : App) : App := { a with chat_scroll_offset := 0 }

/-- `App::move_cursor_left`. -/
def App.move_cursor_left (a : App) : App :=
  if 0 < a.input_cursor then { a with input_cursor := a.input_cursor - 1 } else a

/-- `App::move_cursor_right`. -/
def App.move_cursor_right (a : App) : App :=
  if a.input_cursor < a.input.length then { a with input_cursor := a.input_cursor + 1 } else a

/-- `App::move_cursor_home`. -/
def App.move_cursor_home (a : App) : App := { a with input_cursor := 0 }

/-- `App::move_cursor_end`. -/
def App.move_cursor_end (a : App) : App := { a with input_cursor := a.input.length }

/-- `App::move_cursor_word_left`. -/
def App.move_cursor_word_left (a : App) : App :=
  { a with input_cursor := prev_word_boundary a.input a.input_cursor }

/-- `App::move_cursor_word_right`. -/
def App.move_cursor_word_right (a : App) : App :=
  { a with input_cursor := next_word_boundary a.input a.input_cursor }

/-- `App::cleanup_pending_pastes`: drop mappings whose placeholder no
longer occurs in the composed text. -/
def App.cleanup_pending_pastes (a : App) : App :=
  if a.pending_pastes = [] then a
  else
    let full := a.get_input_text
    { a with pending_pastes := a.pending_pastes.filter (fun p => containsSub full p.1) }

/-- `App::register_pending_paste`. -/
def App.register_pending_paste (a : App) (placeholder actual : RStr) : App :=
  { a with pending_pastes := a.pending_pastes ++ [(placeholder, actual)] }

/-- The scan loop of `App::try_remove_placeholder_at_cursor`: first
pending entry (in registration order) whose placeholder's first
occurrence has its relevant boundary exactly at `boundary`.  Returns the
entry index, the placeholder and the occurrence's start (char index). -/
def scanPlaceholderHit (line : RStr) (boundary : Nat) (backwards : Bool) :
    List (RStr × RStr) → Option (Nat × RStr × Nat)
  | [] => none
  | (placeholder, _) :: rest =>
    match find_substring_char_index line placeholder with
    | some start_chars =>
      let end_chars := start_chars + placeholder.length
      if (if backwards then boundary = end_chars else boundary = start_chars) then
        some (0, placeholder, start_chars)
      else (scanPlaceholderHit line boundary backwards rest).map (fun r => (r.1 + 1, r.2))
    | none => (scanPlaceholderHit line boundary backwards rest).map (fun r => (r.1 + 1, r.2))

/-- `App::try_remove_placeholder_at_cursor`.  `backwards = true` models
the Backspace direction (`is_backspace` in the source). -/
def App.try_remove_placeholder_at_cursor (a : App) (backwards : Bool) : Option (Bool × App) :=
  if a.input = [] ∨ a.pending_pastes = [] then some (false, a)
  else
    match scanPlaceholderHit a.input a.input_cursor backwards a.pending_pastes with
    | none => some (false, a)
    | some (idx, placeholder, start_chars) => do
      let (before, after) ← split_by_char_index a.input start_chars
      let (_, tail) ← split_by_char_index after placeholder.length
      pure (true, { a with input := before ++ tail, input_cursor := start_chars,
                           pending_pastes := a.pending_pastes.eraseIdx idx })

/-- `App::insert_char`. -/
def App.insert_char (a : App) (c : Char) : Option App :=
  if a.input.length ≤ a.input_cursor then
    let input := a.input ++ [c]
    some (App.cleanup_pending_pastes { a with input := input, input_cursor := input.length })
  else do
    let byte_idx := char_to_byte_index a.input a.input_cursor
    let input ← insertAtByte a.input byte_idx c
    pure (App.cleanup_pending_pastes { a with input := input, input_cursor := a.input_cursor + 1 })

/-- `App::backspace`. -/
def App.backspace (a : App) : Option App := do
  let (removed, a1) ← a.try_remove_placeholder_at_cursor true
  if removed then pure a1.cleanup_pending_pastes
  else
    let a2 ←
      if 0 < a1.input_cursor then do
        let del_char_pos := a1.input_cursor - 1
        let byte_idx := char_to_byte_index a1.input del_char_pos
        let input ← removeAtByte a1.input byte_idx
        pure { a1 with input := input, input_cursor := a1.input_cursor - 1 }
      else if a1.input_cursor = 0 ∧ a1.input_mode = .MultiLine ∧ a1.multiline_buffer ≠ [] then
        let previous_line := (a1.multiline_buffer.getLast?).getD []
        let rest_buffer := a1.multiline_buffer.dropLast
        let prev_chars := previous_line.length
        let mode := if rest_buffer = [] then InputMode.Normal else a1.input_mode
        pure { a1 with input := previous_line ++ a1.input, input_cursor := prev_chars,
                       multiline_buffer := rest_buffer, input_mode := mode }
      else pure a1
    pure a2.cleanup_pending_pastes

/-- `App::delete`. -/
def App.delete (a : App) : Option App := do
  let (removed, a1) ← a.try_remove_placeholder_at_cursor false
  if removed then pure a1.cleanup_pending_pastes
  else
    let a2 ←
      if a1.input_cursor < a1.input.length then do
        let byte_idx := char_to_byte_index a1.input a1.input_cursor
        let input ← removeAtByte a1.input byte_idx
        pure { a1 with input := input }
      else pure a1
    pure a2.cleanup_pending_pastes

/-- `App::delete_prev_word`. -/
def App.delete_prev_word (a : App) : Option App :=
  if a.input_cursor = 0 then some a
  else
    let start := prev_word_boundary a.input a.input_cursor
    if start < a.input_cursor then do
      let start_b := char_to_byte_index a.input start
      let end_b := char_to_byte_index a.input a.input_cursor
      let input ← replaceRangeBytes a.input start_b end_b []
      pure (App.cleanup_pending_pastes { a with input := input, input_cursor := start })
    else some a

/-- `App::delete_next_word`. -/
def App.delete_next_word (a : App) : Option App :=
  let endc := next_word_boundary a.input a.input_cursor
  let cur_b := char_to_byte_index a.input a.input_cursor
  let end_b := char_to_byte_index a.input endc
  if cur_b < end_b then do
    let input ← replaceRangeBytes a.input cur_b end_b []
    pure (App.cleanup_pending_pastes { a with input := input })
  else some a

/-- `App::kill_to_line_start`. -/
def App.kill_to_line_start (a : App) : Option App :=
  if a.input_cursor = 0 then some a
  else do
    let end_b := char_to_byte_index a.input a.input_cursor
    let input ← replaceRangeBytes a.input 0 end_b []
    pure (App.cleanup_pending_pastes { a with input := input, input_cursor := 0 })

/-- `App::kill_to_line_end`. -/
def App.kill_to_line_end (a : App) : Option App := do
  let cur_b := char_to_byte_index a.input a.input_cursor
  let input ← replaceRangeBytes a.input cur_b (utf8Len a.input) []
  pure (App.cleanup_pending_pastes { a with input := input })

/-- `App::push_history`: de-duplicate consecutive entries, reset the
history cursor. -/
def App.push_history (a : App) (line : RStr) : App :=
  let a :=
    if rustTrim line ≠ [] then
      if a.input_history.getLast? ≠ some line then
        { a with input_history := a.input_history ++ [line] }
      else a
    else a
  { a with history_index := none }

/-- `App::history_prev`.  The source indexes `input_history[i]`; the
index is always in range because `history_index` is only ever set to a
valid index, so the `getD` default is unreachable. -/
def App.history_prev (a : App) : App :=
  if a.input_history = [] then a
  else
    let next_index :=
      match a.history_index with
      | none => a.input_history.length - 1
      | some 0 => 0
      | some (i + 1) => i
    let input := (a.input_history.get? next_index).getD []
    { a with history_index := some next_index, input := input, input_cursor := input.length }

/-- `App::history_next`. -/
def App.history_next (a : App) : App :=
  if a.input_history = [] then a
  else
    match a.history_index with
    | none => a
    | some i =>
      if i + 1 < a.input_history.length then
        let input := (a.input_history.get? (i + 1)).getD []
        { a with history_index := some (i + 1), input := input, input_cursor := input.length }
      else
        { a with history_index := none, input := [], input_cursor := 0 }

/-- `App::show_execution_result`. -/
def App.show_execution_result (a : App) (command output : RStr) : App :=
  { a with popup_state := .executionResult command output }

/-- `App::show_description`. -/
def App.show_description (a : App) (command description : RStr) : App :=
  { a with popup_state := .description command description }

/-- `App::hide_popup`. -/
def App.hide_popup (a : App) : App := { a with popup_state := .none }

/-- `App::is_popup_shown`. -/
def App.is_popup_shown (a : App) : Bool := a.popup_state ≠ .none

/-- `App::try_queue_message`: queue when a response is being received. -/
def App.try_queue_message (a : App) (message : RStr) : Bool × App :=
  if a.is_receiving_response then
    (true, ({ a with message_queue := a.message_queue ++ [message] }).update_status_message)
  else (false, a)

/-- `App::dequeue_message`. -/
def App.dequeue_message (a : App) : Option RStr × App :=
  match a.message_queue with
  | [] => (none, a.update_status_message)
  | m :: rest => (some m, ({ a with message_queue := rest }).update_status_message)

/-- `App::handle_ctrl_c`: `now` is the current time in milliseconds
(`Instant::now()`); returns `(should_quit, new_state)`. -/
def App.handle_ctrl_c (a : App) (now : Nat) : Bool × App :=
  match a.last_ctrl_c_time with
  | some last_time =>
    if now - last_time ≤ 500 then (true, { a with last_ctrl_c_time := none })
    else
      (false, { a with input := [], input_cursor := 0, multiline_buffer := [],
                       input_mode := .Normal, history_index := none,
                       last_ctrl_c_time := some now })
  | none =>
    (false, { a with input := [], input_cursor := 0, multiline_buffer := [],
                     input_mode := .Normal, history_index := none,
                     last_ctrl_c_time := some now })

/-- The per-entry replacement loop of `App::expand_placeholders_for_submit`:
replace each placeholder once, in registration order. -/
def expandSubmitLoop : List (RStr × RStr) → RStr → Option RStr
  | [], text => some text
  | (placeholder, actual) :: rest, text =>
    match find_substring_char_index text placeholder with
    | some idx_chars => do
      let (before, after) ← split_by_char_index text idx_chars
      let (_, tail) ← split_by_char_index after placeholder.length
      expandSubmitLoop rest (before ++ actual ++ tail)
    | none => expandSubmitLoop rest text

/-- `App::expand_placeholders_for_submit`: returns the expanded text and
the state with the mappings cleared. -/
def App.expand_placeholders_for_submit (a : App) : Option (RStr × App) :=
  let text := a.get_input_text
  if a.pending_pastes = [] then some (text, a)
  else do
    let text ← expandSubmitLoop a.pending_pastes text
    pure (text, { a with pending_pastes := [] })

/-- The per-entry loop of `App::expand_placeholders_inline`, tracking the
current line, cursor and whether any expansion occurred. -/
def expandInlineLoop : List (RStr × RStr) → RStr → Nat → Bool → Option (RStr × Nat × Bool)
  | [], line, cursor, changed => some (line, cursor, changed)
  | (placeholder, actual) :: rest, line, cursor, changed =>
    match find_substring_char_index line placeholder with
    | some start_chars => do
      let (before, after) ← split_by_char_index line start_chars
      let (_, tail) ← split_by_char_index after placeholder.length
      let cursor := if start_chars ≤ cursor then start_chars + actual.length else cursor
      expandInlineLoop rest (before ++ actual ++ tail) cursor true
    | none => expandInlineLoop rest line cursor changed

/-- `App::expand_placeholders_inline`. -/
def App.expand_placeholders_inline (a : App) : Option (Bool × App) :=
  if a.pending_pastes = [] then some (false, a)
  else do
    let (line, cursor, changed) ← expandInlineLoop a.pending_pastes a.input a.input_cursor false
    if changed then
      let a := { a with input := line, input_cursor := cursor }
      let a :=
        if rcontainsChar a.input '\n' then
          let parts := splitOnChar '\n' a.input
          if 1 < parts.length then
            let lastPart := (parts.getLast?).getD []
            { a with multiline_buffer := parts.dropLast, input := lastPart,
                     input_cursor := lastPart.length, input_mode := .MultiLine }
          else a
        else a
      pure (true, a.cleanup_pending_pastes)
    else pure (false, a)

/-- `crossterm` key codes used by `handle_key_event` (src/tui/handler.rs). -/
inductive KeyCode
  | char (c : Char)
  | f (n : Nat)
  | enter
  | backspaceKey
  | deleteKey
  | left
  | right
  | homeKey
  | endKey
  | up
  | down
  | other
deriving DecidableEq, Repr

/-- `crossterm` key modifiers. -/
structure KeyMods where
  control : Bool := false
  shift : Bool := false
  alt : Bool := false
deriving DecidableEq, Repr

/-- A keyboard event. -/
structure KeyEvt where
  code : KeyCode
  mods : KeyMods := {}
deriving DecidableEq, Repr

/-- The `TuiEvent`s sent by `handle_key_event` through `event_tx`. -/
inductive OutEvt
  | userInput (s : RStr)
  | executeCode (lang : InterpreterType) (code : RStr)
  | executeCommand (cmd : RStr)
  | describeCommand (cmd : RStr)
  | showVariables
deriving DecidableEq, Repr

/-- The `InputMode::Normal`/`MultiLine` newline step shared verbatim by the
Ctrl+J arm, the Ctrl+M `Normal` arm and the Shift+Enter arm of
`handle_key_event`: current line is pushed to the multiline buffer. -/
def App.newlineStep (a : App) : App :=
  match a.input_mode with
  | .Normal =>
    let a := { a with input_mode := .MultiLine }
    if a.input ≠ [] then
      { a with multiline_buffer := a.multiline_buffer ++ [a.input], input := [], input_cursor := 0 }
    else a
  | .MultiLine =>
    { a with multiline_buffer := a.multiline_buffer ++ [a.input], input := [], input_cursor := 0 }

/-- The submit block of `handle_key_event`, duplicated verbatim in the
source between the Ctrl+S arm and the Enter (no Shift) arm: expand
placeholders, handle `exit()`, single-letter shortcuts, then send the
input.  Returns `(quit, state, sent events)`. -/
def submitCurrentInput (a : App) : Option (Bool × App × List OutEvt) := do
  let (input, a) ← a.expand_placeholders_for_submit
  if rustTrim input = "exit()".toList then pure (true, a, [])
  else
    let shortcuts :=
      ((a.is_shell_mode && a.allow_interaction) || a.interpreter.isSome) = true
    let t := rustTrim input
    if shortcuts ∧ (t = ['e'] ∨ t = ['r']) ∧ a.last_command ≠ [] then
      match a.interpreter with
      | some lang => pure (false, a.clear_input, [OutEvt.executeCode lang a.last_command])
      | none => pure (false, a.clear_input, [OutEvt.executeCommand a.last_command])
    else if shortcuts ∧ t = ['d'] ∧ a.last_command ≠ [] then
      pure (false, a.clear_input, [OutEvt.describeCommand a.last_command])
    else if shortcuts ∧ t = ['p'] ∧ a.last_command ≠ [] then
      let a := a.show_description "Last Command".toList a.last_command
      pure (false, a.clear_input, [])
    else if rustTrim input ≠ [] then
      pure (false, (a.push_history input).clear_input, [OutEvt.userInput input])
    else pure (false, a.clear_input, [])

/-- `handle_key_event` (src/tui/handler.rs): `now` is the current time in
milliseconds (used only by the Ctrl+C arm).  Returns
`(quit, new state, events sent)`; `none` models a panic in an editing
operation. -/
def handle_key_event (a : App) (key : KeyEvt) (now : Nat) : Option (Bool × App × List OutEvt) :=
  if a.is_popup_shown then some (false, a.hide_popup, [])
  else
    match key.code with
    | .char c =>
      if c = 'j' ∧ key.mods.control then some (false, a.newlineStep, [])
      else if c = 's' ∧ key.mods.control then submitCurrentInput a
      else if c = 'c' ∧ key.mods.control then
        let (quit, a) := a.handle_ctrl_c now
        some (quit, a, [])
      else if c = 'd' ∧ key.mods.control then
        if rustTrim a.get_input_text = [] then some (true, a, [])
        else (a.delete).map (fun b => (false, b, []))
      else if c = 'l' ∧ key.mods.control then
        if a.interpreter.isSome then some (false, a, [OutEvt.showVariables])
        else some (false, a, [])
      else if c = 'e' ∧ key.mods.control ∧ key.mods.shift then
        (a.expand_placeholders_inline).map (fun r => (false, r.2, []))
      else if c = 'E' ∧ key.mods.control then
        (a.expand_placeholders_inline).map (fun r => (false, r.2, []))
      else if c = 'a' ∧ key.mods.control then some (false, a.move_cursor_home, [])
      else if c = 'e' ∧ key.mods.control then some (false, a.move_cursor_end, [])
      else if c = 'u' ∧ key.mods.control then (a.kill_to_line_start).map (fun b => (false, b, []))
      else if c = 'k' ∧ key.mods.control then (a.kill_to_line_end).map (fun b => (false, b, []))
      else if c = 'w' ∧ key.mods.control then (a.delete_prev_word).map (fun b => (false, b, []))
      else if c = 'm' ∧ key.mods.control then
        match a.input_mode with
        | .Normal => some (false, a.newlineStep, [])
        | .MultiLine =>
          let a :=
            if a.multiline_buffer ≠ [] ∨ a.input ≠ [] then
              let all_lines :=
                a.multiline_buffer ++ (if a.input ≠ [] then [a.input] else [])
              let joined := joinWith ['\n'] all_lines
              -- The source sets `input_cursor = input.len()`: the UTF-8 BYTE
              -- length of the joined string, not its character count.
              { a with input := joined, input_cursor := utf8Len joined, multiline_buffer := [] }
            else a
          some (false, { a with input_mode := .Normal }, [])
      else if c = 'h' ∧ key.mods.control then some (false, a.toggle_help, [])
      else if c = '/' ∧ key.mods.control then some (false, a.toggle_help, [])
      else if c = '?' ∧ key.mods.control then some (false, a.toggle_help, [])
      else if key.mods.control then some (false, a, [])
      else (a.insert_char c).map (fun b => (false, b, []))
    | .f n => if n = 1 then some (false, a.toggle_help, []) else some (false, a, [])
    | .enter =>
      if key.mods.shift then some (false, a.newlineStep, [])
      else submitCurrentInput a
    | .backspaceKey =>
      if key.mods.alt then (a.delete_prev_word).map (fun b => (false, b, []))
      else (a.backspace).map (fun b => (false, b, []))
    | .deleteKey =>
      if key.mods.alt then (a.delete_next_word).map (fun b => (false, b, []))
      else (a.delete).map (fun b => (false, b, []))
    | .left =>
      if key.mods.alt ∨ key.mods.control then some (false, a.move_cursor_word_left, [])
      else some (false, a.move_cursor_left, [])
    | .right =>
      if key.mods.alt ∨ key.mods.control then some (false, a.move_cursor_word_right, [])
      else some (false, a.move_cursor_right, [])
    | .homeKey => some (false, a.move_cursor_home, [])
    | .endKey => some (false, a.move_cursor_end, [])
    | .up =>
      if key.mods.control ∨ a.input_mode = .MultiLine then some (false, a.scroll_up, [])
      else some (false, a.history_prev, [])
    | .down =>
      if key.mods.control ∨ a.input_mode = .MultiLine then some (false, a.scroll_down, [])
      else some (false, a.history_next, [])
    | .other => some (false, a, [])

/-- The compact placeholder inserted for a paste longer than 200
characters: `format!("\u{F8FF}\u{FC}\u{EC}\u{E3}[PASTE: {} chars]", n)`
(the literal in the source carries those exact four leading characters). -/
def pasteLargePlaceholder (char_count : Nat) : RStr :=
  "üìã[PASTE: ".toList ++ natDigits char_count ++ " chars]".toList

/-- `app_paste_text` (src/tui/handler.rs): large pastes are replaced by a
compact placeholder, medium pastes by a truncated preview; both register a
pending-paste mapping keyed by the exact inserted text. -/
def app_paste_text (a : App) (content : RStr) : Option App :=
  let char_count := content.length
  let content_to_insert :=
    if 200 < char_count then pasteLargePlaceholder char_count
    else if 50 < char_count then
      let preview := content.take 50
      let clean_preview :=
        if rcontainsChar preview '\n' then
          let first_line := ((rustLines preview).head?).getD []
          if utf8Len first_line < 50 - 10 ∧ 1 < (rustLines content).length then
            first_line ++ "... (+".toList ++ natDigits ((rustLines content).length - 1) ++
              " lines)".toList
          else first_line
        else preview
      clean_preview ++ "...üìã[".toList ++ natDigits char_count ++
        " chars total]".toList
    else content
  let a := if 50 < char_count then a.register_pending_paste content_to_insert content else a
  let c := content_to_insert
  let has_newlines := rcontainsChar c '\n'
  match a.input_mode with
  | .Normal =>
    if has_newlines then
      let lines := splitOnChar '\n' c
      if 1 < lines.length then
        let lastLine := (lines.getLast?).getD []
        some { a with input_mode := .MultiLine,
                      multiline_buffer := a.multiline_buffer ++ lines.dropLast,
                      input := lastLine, input_cursor := lastLine.length }
      else do
        let byte_idx := char_to_byte_index a.input a.input_cursor
        let input ← insertStrAtByte a.input byte_idx c
        pure { a with input_mode := .MultiLine, input := input,
                      input_cursor := a.input_cursor + c.length }
    else do
      let byte_idx := char_to_byte_index a.input a.input_cursor
      let input ← insertStrAtByte a.input byte_idx c
      pure { a with input := input, input_cursor := a.input_cursor + c.length }
  | .MultiLine =>
    if has_newlines then
      let before := a.input.take a.input_cursor
      let after := a.input.drop a.input_cursor
      let lines := splitOnChar '\n' c
      match lines.head? with
      | none => some a
      | some first =>
        let new_first_line := before ++ first
        if lines.length = 1 then
          some { a with input := new_first_line ++ after,
                        input_cursor := new_first_line.length }
        else
          let middle := (lines.drop 1).dropLast
          let last_line := (lines.getLast?).getD []
          some { a with multiline_buffer := a.multiline_buffer ++ [new_first_line] ++ middle,
                        input := last_line ++ after, input_cursor := last_line.length }
    else do
      let byte_idx := char_to_byte_index a.input a.input_cursor
      let input ← insertStrAtByte a.input byte_idx c
      pure { a with input := input, input_cursor := a.input_cursor + c.length }

/-- `format_stream_error_message` (src/tui/handler.rs): header (the source
literal's exact leading characters are `\u{201A}\u{F9}\u{E5}`), an
800-character snippet of the raw error, then substring-matched hints
prefixed by `\n\u{F8FF}\u{FC}\u{ED}\u{B0} Hints: `. -/
def format_stream_error_message (err_text model : RStr) : RStr :=
  let msg := "‚ùå Failed to stream from LLM.\n".toList
  let snippet := err_text.take 800
  let msg := msg ++ snippet
  let lower := lowerStr err_text
  if containsSub lower "hint:".toList then msg
  else
    let hints : List RStr := []
    let hints :=
      if containsSub lower "401".toList || containsSub lower "unauthorized".toList ||
          containsSub lower "api key".toList then
        hints ++ ["Set OPENAI_API_KEY in your env or add it to ~/.config/sgpt_rs/.sgptrc".toList]
      else hints
    let hints :=
      if (containsSub lower "model".toList &&
            (containsSub lower "not found".toList || containsSub lower "unknown".toList ||
              containsSub lower "invalid".toList)) ||
          containsSub lower "unknown model".toList then
        hints ++ ["Check --model (current: ".toList ++ model ++
          ") or set DEFAULT_MODEL in ~/.config/sgpt_rs/.sgptrc".toList]
      else hints
    let hints :=
      if containsSub lower "rate limit".toList || containsSub lower "quota".toList then
        hints ++ ["You may be rate limited; retry later or reduce concurrency".toList]
      else hints
    let hints :=
      if containsSub lower "multimodal".toList || containsSub lower "vision".toList ||
          containsSub lower "image".toList then
        hints ++ [("Your provider may not support images/vision for this endpoint; " ++
          "try without image options or use a vision-capable model").toList]
      else hints
    if hints ≠ [] then
      msg ++ "\nüí° Hints: ".toList ++ joinWith "; ".toList hints
    else msg

/-- `StreamEvent` (src/llm/mod.rs). -/
inductive StreamEvent
  | content (s : RStr)
  | toolCallDelta
  | toolCallsFinish
  | done
deriving DecidableEq, Repr

/-- The channel events relevant to the queueing discipline of `run_app`
(src/tui/handler.rs): `UserInput`, `LlmStream(..)` and
`ProcessNextMessage`. -/
inductive ChEv
  | userInput (s : RStr)
  | llmContent (s : RStr)
  | llmToolDelta
  | llmToolsFinish
  | llmDone
  | processNext
deriving DecidableEq, Repr

/-- The event-loop state: the `App` plus two observers — how many model
requests have been dispatched and not yet completed (`inflight`), and the
dispatch order (`dispatched`). -/
structure LoopState where
  app : App
  inflight : Nat := 0
  dispatched : List RStr := []
deriving DecidableEq, Repr

/-- `handle_user_input` (src/tui/handler.rs) as seen by the loop state:
empty-after-trim input returns immediately; otherwise the user message is
recorded, streaming starts, and a new model request is spawned. -/
def dispatchUserInput (st : LoopState) (input : RStr) : LoopState :=
  if rustTrim input = [] then st
  else
    { app := (st.app.add_message (.User, input)).start_response,
      inflight := st.inflight + 1, dispatched := st.dispatched ++ [input] }

/-- One event processed by the `run_app` loop, returning the events the
handler itself sends back onto the channel (`ProcessNextMessage` after a
completion).  `ProcessNextMessage` dispatches the dequeued message
without re-checking `is_receiving_response`, exactly as the source does. -/
def loopStep (st : LoopState) (e : ChEv) : LoopState × List ChEv :=
  match e with
  | .userInput s =>
    let (queued, app) := st.app.try_queue_message s
    if queued then ({ st with app := app }, [])
    else (dispatchUserInput { st with app := app } s, [])
  | .llmContent s => ({ st with app := (st.app.append_response s).scroll_to_bottom }, [])
  | .llmToolDelta => (st, [])
  | .llmToolsFinish => (st, [])
  | .llmDone =>
    ({ st with app := st.app.finish_response, inflight := st.inflight - 1 }, [.processNext])
  | .processNext =>
    let (msg, app) := st.app.dequeue_message
    match msg with
    | some m => (dispatchUserInput { st with app := app } m, [])
    | none => ({ st with app := app }, [])

/-- Run the loop over a channel: events are consumed in FIFO order and
events sent by a handler are appended at the tail, as an mpsc channel
delivers them.  `fuel` bounds the number of loop ticks (structural
recursion; any fuel at least the total number of events processed gives
the final state). -/
def runChannelFuel : Nat → LoopState → List ChEv → LoopState
  | 0, st, _ => st
  | _ + 1, st, [] => st
  | fuel + 1, st, e :: rest =>
    let (st', emitted) := loopStep st e
    runChannelFuel fuel st' (rest ++ emitted)

/-- The event emission of the streaming task spawned by
`handle_user_input` (src/tui/handler.rs, lines 960–979), applied to the
sequence of results the network stream produces: `Ok` events are
forwarded; the first `Err` emits one formatted content event and a
completion event and stops the forwarding loop; after the loop the task
always sends one more completion event. -/
def streamTaskEmits (results : List (Except RStr StreamEvent)) (model : RStr) : List ChEv :=
  match results with
  | [] => [ChEv.llmDone]
  | .ok ev :: rest =>
    (match ev with
     | .content s => ChEv.llmContent s
     | .toolCallDelta => ChEv.llmToolDelta
     | .toolCallsFinish => ChEv.llmToolsFinish
     | .done => ChEv.llmDone) :: streamTaskEmits rest model
  | .error err :: _ =>
    [ChEv.llmContent (format_stream_error_message err model), ChEv.llmDone, ChEv.llmDone]

/-- External events of the fused loop semantics: a submitted input or a
stream completion whose `ProcessNextMessage` is processed immediately
after it (no interleaved event). -/
inductive ExtEv
  | userInput (s : RStr)
  | streamDone
deriving DecidableEq, Repr

/-- One fused step: a completion runs `finish_response` and then
immediately processes its `ProcessNextMessage`. -/
def fusedStep (st : LoopState) (e : ExtEv) : LoopState :=
  match e with
  | .userInput s =>
    let (queued, app) := st.app.try_queue_message s
    if queued then { st with app := app } else dispatchUserInput { st with app := app } s
  | .streamDone =>
    let st := { st with app := st.app.finish_response, inflight := st.inflight - 1 }
    let (msg, app) := st.app.dequeue_message
    match msg with
    | some m => dispatchUserInput { st with app := app } m
    | none => { st with app := app }

/-- Fused run over a trace of external events. -/
def fusedRun : LoopState → List ExtEv → LoopState
  | st, [] => st
  | st, e :: rest => fusedRun (fusedStep st e) rest

/-- The submitted inputs of a trace, in arrival order. -/
def arrivals : List ExtEv → List RStr
  | [] => []
  | .userInput s :: rest => s :: arrivals rest
  | .streamDone :: rest => arrivals rest

/-- Well-formed traces: every submitted input is non-empty after trimming
(the key handler only sends such inputs) and a completion only arrives
while a request is streaming. -/
def WFtrace : LoopState → List ExtEv → Bool
  | _, [] => true
  | st, e :: rest =>
    (match e with
     | .userInput s => decide (rustTrim s ≠ [])
     | .streamDone => st.app.is_receiving_response) && WFtrace (fusedStep st e) rest

/-- `serde_json::Value`. -/
inductive Json
  | null
  | bool (b : Bool)
  | num (n : Int)
  | str (s : RStr)
  | arr (elems : List Json)
  | obj (fields : List (RStr × Json))

/-- `Value::get(key)` on an object (first matching field). -/
def Json.get (j : Json) (key : RStr) : Option Json :=
  match j with
  | .obj fields => (fields.find? (fun f => decide (f.1 = key))).map (fun f => f.2)
  | _ => none

/-- `Value::as_str`. -/
def Json.as_str : Json → Option RStr
  | .str s => some s
  | _ => none

/-- `Value::as_bool`. -/
def Json.as_bool : Json → Option Bool
  | .bool b => some b
  | _ => none

/-- `Value::as_array`. -/
def Json.as_array : Json → Option (List Json)
  | .arr xs => some xs
  | _ => none

/-- `Value::as_object`. -/
def Json.as_object : Json → Option (List (RStr × Json))
  | .obj fs => some fs
  | _ => none

/-- `ExecutionResult` (src/execution/mod.rs); the `variables` field's
`HashMap` is modelled as the association list `varsMap` with
overwrite-on-insert (`variables` is a reserved token in Lean). -/
structure CodeExecResult where
  success : Bool
  output : RStr
  errors : List RStr
  varsMap : List (RStr × RStr)
  plots : List RStr
deriving DecidableEq, Repr

/-- `HashMap::insert` on the association-list model. -/
def insertVar (m : List (RStr × RStr)) (k v : RStr) : List (RStr × RStr) :=
  if m.any (fun p => decide (p.1 = k)) then
    m.map (fun p => if p.1 = k then (k, v) else p)
  else m ++ [(k, v)]

/-- `HashMap::get` on the association-list model. -/
def lookupVar (m : List (RStr × RStr)) (k : RStr) : Option RStr :=
  (m.find? (fun p => decide (p.1 = k))).map (fun p => p.2)

/-- The reader task's collection of string entries from the `errors` array. -/
def collectErrors : List Json → List RStr
  | [] => []
  | e :: rest =>
    match e.as_str with
    | some s => s :: collectErrors rest
    | none => collectErrors rest

/-- The reader task's collection of string-valued fields from `variables`. -/
def collectVars : List (RStr × Json) → List (RStr × RStr) → List (RStr × RStr)
  | [], acc => acc
  | (k, v) :: rest, acc =>
    match v.as_str with
    | some s => collectVars rest (insertVar acc k s)
    | none => collectVars rest acc

/-- `String` ordering (byte-wise lexicographic; UTF-8 byte order agrees
with scalar-value order, so character-wise comparison is equivalent). -/
def lexLe : RStr → RStr → Bool
  | [], _ => true
  | _ :: _, [] => false
  | c :: cs, d :: ds =>
    if c.toNat < d.toNat then true
    else if d.toNat < c.toNat then false
    else lexLe cs ds

/-- Insertion step of `Vec::sort` on strings. -/
def insertSorted (x : RStr) : List RStr → List RStr
  | [] => [x]
  | y :: ys => if lexLe x y then x :: y :: ys else y :: insertSorted x ys

/-- `Vec::sort` on strings (stable; modelled by insertion sort). -/
def sortStrings : List RStr → List RStr
  | [] => []
  | x :: xs => insertSorted x (sortStrings xs)

/-- The variables-snapshot formatting of the reader task
(src/tui/handler.rs, lines 336–348): `Variables:\n` then either
`(none)\n` or one `- {k}: {v}\n` line per key in sorted order. -/
def formatVariablesText (vars : List (RStr × RStr)) : RStr :=
  let txt := "Variables:\n".toList
  if vars = [] then txt ++ "(none)\n".toList
  else
    let keys := sortStrings (vars.map (fun p => p.1))
    txt ++ keys.foldl (fun acc k =>
      match lookupVar vars k with
      | some v => acc ++ "- ".toList ++ k ++ ": ".toList ++ v ++ "\n".toList
      | none => acc) []

/-- The two events the reader task can route a response line to. -/
inductive RoutedEv
  | variablesSnapshot (text : RStr)
  | codeExecutionResult (res : CodeExecResult)
deriving DecidableEq, Repr

/-- One line of the interpreter reader task (src/tui/handler.rs, lines
264–352), applied to `serde_json::from_str`'s result for the trimmed
line: a parse failure (`none`) makes the task `continue`, producing no
event; otherwise a `result`/`error`/missing-field classification is
built and routed by the `vars-` id prefix. -/
def processInterpreterLine (parsed : Option Json) : Option RoutedEv :=
  match parsed with
  | none => none
  | some parsed =>
    let id_str := ((parsed.get "id".toList).bind Json.as_str).getD []
    let res :=
      match parsed.get "result".toList with
      | some obj =>
        let success := ((obj.get "success".toList).bind Json.as_bool).getD false
        let output := ((obj.get "output".toList).bind Json.as_str).getD []
        let errors_vec := ((obj.get "errors".toList).bind Json.as_array).getD []
        let errors := collectErrors errors_vec
        let varsAcc :=
          match (obj.get "variables".toList).bind Json.as_object with
          | some vars_obj => collectVars vars_obj []
          | none => []
        CodeExecResult.mk success output errors varsAcc []
      | none =>
        match parsed.get "error".toList with
        | some err =>
          let msg := ((err.get "message".toList).bind Json.as_str).getD "error".toList
          CodeExecResult.mk false [] [msg] [] []
        | none => CodeExecResult.mk false [] ["invalid_response".toList] [] []
    if "vars-".toList.isPrefixOf id_str then
      some (.variablesSnapshot (formatVariablesText res.varsMap))
    else some (.codeExecutionResult res)

/-! ### Claim-specific definitions -/

/-- The three basic editing operations of claim C3. -/
inductive EditOp
  | ins (c : Char)
  | back
  | del
deriving DecidableEq, Repr

/-- Apply one editing operation (`App::insert_char` / `App::backspace` /
`App::delete`). -/
def applyEditOp : EditOp → App → Option App
  | .ins c, a => a.insert_char c
  | .back, a => a.backspace
  | .del, a => a.delete

/-- Apply a sequence of editing operations left to right. -/
def applyEditOps : List EditOp → App → Option App
  | [], a => some a
  | op :: rest, a => (applyEditOp op a).bind (applyEditOps rest)

/-- Invariant of the fused queueing loop: at most one model request is in
flight, the streaming flag tracks it exactly, the queue is empty whenever
the loop is idle, and queued messages are non-empty after trimming. -/
def QInv (st : LoopState) : Prop :=
  st.inflight ≤ 1 ∧ (st.app.is_receiving_response = true ↔ st.inflight = 1) ∧
    (st.app.is_receiving_response = false → st.app.message_queue = []) ∧
    (∀ m ∈ st.app.message_queue, rustTrim m ≠ [])

/-- Reachable state for claim C1: the user typed `é`, pressed Ctrl+M
(entering multi-line mode, moving `é` into the buffer), leaving an empty
current line. -/
def c1State : App :=
  { initialApp with input_mode := .MultiLine, multiline_buffer := [['é']] }

/-- The Ctrl+M key event. -/
def ctrlMKey : KeyEvt := { code := .char 'm', mods := { control := true } }

/-- The fresh loop state (no request in flight, empty queue). -/
def loopInit : LoopState := { app := initialApp }

/-- Channel trace for claim C2's counterexample: `a` is dispatched, `m`
is queued while `a` streams, the completion of `a`'s request arrives, and
a further input `x` (sent to the channel by the key handler while `a` was
still streaming) sits in the channel between that completion and the
`ProcessNextMessage` it emits. -/
def c2Trace : List ChEv :=
  [ChEv.userInput "a".toList, ChEv.userInput "m".toList, ChEv.llmDone,
   ChEv.userInput "x".toList]

/-- Claim C6's failing input: the streaming task fails with a 401-style
error while two messages are queued. -/
def c6Err : RStr := "401 Unauthorized".toList

/-- Loop state with one request streaming and two queued messages. -/
def c6Init : LoopState :=
  let a := { initialApp with
    is_receiving_response := true,
    message_queue := ["first queued".toList, "second queued".toList] }
  { app := a, inflight := 1 }

/-- The loop state after processing everything the failing stream task
emits (one formatted content event, a completion, and the unconditional
trailing completion). -/
def c6Run : LoopState :=
  runChannelFuel 12 c6Init (streamTaskEmits [Except.error c6Err] "gpt-4o".toList)

/-- The spec's example response line
`{"id":"vars-3","result":{"success":true,"output":"","errors":[],"variables":{"x":"int"}}}`
as parsed JSON. -/
def c7ExampleJson : Json :=
  Json.obj [("id".toList, Json.str "vars-3".toList),
    ("result".toList, Json.obj [("success".toList, Json.bool true),
      ("output".toList, Json.str []),
      ("errors".toList, Json.arr []),
      ("variables".toList, Json.obj [("x".toList, Json.str "int".toList)])])]

/-- The Ctrl+D key event. -/
def ctrlDKey : KeyEvt := { code := .char 'd', mods := { control := true } }

/-- State for claim C10's counterexample: an execution-result popup is
shown and the composer is empty. -/
def c10State : App := { initialApp with popup_state := .executionResult [] [] }

/-- State for claim C5's counterexample: the same 201-character text
pasted twice, producing two identical placeholders and two identical
pending-paste entries, with the cursor at the end of the line (the
trailing boundary of the second placeholder occurrence). -/
def c5TwicePasted : Option App :=
  (app_paste_text initialApp (List.replicate 201 'x')).bind
    (fun a1 => app_paste_text a1 (List.replicate 201 'x'))

/-- The per-event well-formedness condition of a trace head: submitted
inputs are non-empty after trimming, completions only arrive while
streaming. -/
def WFhead (st : LoopState) : ExtEv → Prop
  | .userInput s => rustTrim s ≠ []
  | .streamDone => st.app.is_receiving_response = true

/-- Concrete composer state with a registered placeholder `AB` whose
first occurrence ends exactly at the cursor. -/
def c5WitnessApp : App :=
  { initialApp with
    input := "AB".toList
    input_cursor := 2
    pending_pastes := [("AB".toList, "zzzz".toList)] }

/-- Concrete state with a recorded first cancel at t = 1000 ms. -/
def c8App : App := { initialApp with last_ctrl_c_time := some 1000 }

/-- Concrete state with a description overlay shown. -/
def c9App : App := { initialApp with popup_state := .description "ls".toList "list".toList }

/-- Concrete non-empty composer state for the Ctrl+D witness. -/
def c10NonEmptyApp : App := { initialApp with input := "hi".toList, input_cursor := 0 }

/-! ### Byte-boundary lemmas: `char_to_byte_index` always lands on a
character boundary, so the byte-level operations succeed and agree with
character-level splicing. -/

theorem splitAtByte_char_to_byte (s : RStr) (n : Nat) (h : n ≤ s.length) :
    splitAtByte s (char_to_byte_index s n) = some (s.take n, s.drop n) := by
  induction s generalizing n with
  | nil =>
    have hn : n = 0 := by simpa using h
    subst hn
    simp [splitAtByte, char_to_byte_index]
  | cons c rest ih =>
    cases n with
    | zero => simp [splitAtByte, char_to_byte_index]
    | succ m =>
      have hm : m ≤ rest.length := by simpa using h
      have hpos : 0 < c.utf8Size := Char.utf8Size_pos c
      have hne : c.utf8Size + char_to_byte_index rest m ≠ 0 := by omega
      have hnlt : ¬ (c.utf8Size + char_to_byte_index rest m < c.utf8Size) := by omega
      simp only [char_to_byte_index, splitAtByte, if_neg hne, hnlt, if_false,
        Nat.add_sub_cancel_left, ih m hm, Option.map_some]
      simp

theorem insertAtByte_char_to_byte (s : RStr) (n : Nat) (c : Char) (h : n ≤ s.length) :
    insertAtByte s (char_to_byte_index s n) c = some (s.take n ++ c :: s.drop n) := by
  induction s generalizing n with
  | nil =>
    have hn : n = 0 := by simpa using h
    subst hn
    simp [insertAtByte, char_to_byte_index]
  | cons d rest ih =>
    cases n with
    | zero => simp [insertAtByte, char_to_byte_index]
    | succ m =>
      have hm : m ≤ rest.length := by simpa using h
      have hpos : 0 < d.utf8Size := Char.utf8Size_pos d
      have hne : d.utf8Size + char_to_byte_index rest m ≠ 0 := by omega
      have hnlt : ¬ (d.utf8Size + char_to_byte_index rest m < d.utf8Size) := by omega
      simp only [char_to_byte_index, insertAtByte, if_neg hne, hnlt, if_false,
        Nat.add_sub_cancel_left, ih m hm, Option.map_some]
      simp

theorem removeAtByte_char_to_byte (s : RStr) (n : Nat) (h : n < s.length) :
    removeAtByte s (char_to_byte_index s n) = some (s.take n ++ s.drop (n + 1)) := by
  induction s generalizing n with
  | nil => simp at h
  | cons d rest ih =>
    cases n with
    | zero => simp [removeAtByte, char_to_byte_index]
    | succ m =>
      have hm : m < rest.length := by simpa using h
      have hpos : 0 < d.utf8Size := Char.utf8Size_pos d
      have hne : d.utf8Size + char_to_byte_index rest m ≠ 0 := by omega
      have hnlt : ¬ (d.utf8Size + char_to_byte_index rest m < d.utf8Size) := by omega
      simp only [removeAtByte, char_to_byte_index, if_neg hne, hnlt, if_false,
        Nat.add_sub_cancel_left, ih m hm, Option.map_some]
      simp

theorem split_by_char_index_eq (s : RStr) (n : Nat) (h : n ≤ s.length) :
    split_by_char_index s n = some (s.take n, s.drop n) := by
  unfold split_by_char_index
  by_cases h0 : n = 0
  · subst h0; simp
  · rw [if_neg h0, splitAtByte_char_to_byte s n h]

theorem isPrefixOf_self (l : List Char) : l.isPrefixOf l = true := by
  rw [List.isPrefixOf_iff_prefix]

theorem find_substring_self (s : RStr) : find_substring_char_index s s = some 0 := by
  unfold find_substring_char_index
  rw [if_pos (isPrefixOf_self s)]

theorem find_substring_bound (hay needle : RStr) (i : Nat)
    (h : find_substring_char_index hay needle = some i) : i + needle.length ≤ hay.length := by
  induction hay generalizing i with
  | nil =>
    unfold find_substring_char_index at h
    by_cases hp : needle.isPrefixOf ([] : RStr)
    · rw [if_pos hp] at h
      have hpre : needle <+: ([] : RStr) := List.isPrefixOf_iff_prefix.mp hp
      have hle := hpre.length_le
      cases h
      simpa using hle
    · rw [if_neg hp] at h
      simp at h
  | cons c rest ih =>
    unfold find_substring_char_index at h
    by_cases hp : needle.isPrefixOf (c :: rest)
    · rw [if_pos hp] at h
      have hpre : needle <+: (c :: rest) := List.isPrefixOf_iff_prefix.mp hp
      have hle := hpre.length_le
      cases h
      simpa using hle
    · rw [if_neg hp] at h
      have h2 : Option.map (fun x => x + 1) (find_substring_char_index rest needle) = some i := h
      rcases hrec : find_substring_char_index rest needle with _ | j
      · rw [hrec] at h2
        exact Option.noConfusion h2
      · rw [hrec] at h2
        have h3 : some (j + 1) = some i := h2
        have h4 : j + 1 = i := by injection h3
        have := ih j hrec
        simp only [List.length_cons]
        omega

theorem scanPlaceholderHit_sound (line : RStr) (boundary : Nat) (bw : Bool)
    (ps : List (RStr × RStr)) (i : Nat) (p : RStr) (start : Nat)
    (h : scanPlaceholderHit line boundary bw ps = some (i, p, start)) :
    i < ps.length ∧ find_substring_char_index line p = some start := by
  induction ps generalizing i with
  | nil => simp [scanPlaceholderHit] at h
  | cons hd rest ih =>
    unfold scanPlaceholderHit at h
    rcases hfind : find_substring_char_index line hd.1 with _ | start'
    · rw [hfind] at h
      have h2 : Option.map (fun r => (r.1 + 1, r.2)) (scanPlaceholderHit line boundary bw rest) =
          some (i, p, start) := h
      rcases hrec : scanPlaceholderHit line boundary bw rest with _ | ⟨i', p', s'⟩
      · rw [hrec] at h2
        exact Option.noConfusion h2
      · rw [hrec] at h2
        have h3 : some (i' + 1, p', s') = some (i, p, start) := h2
        simp only [Option.some.injEq, Prod.mk.injEq] at h3
        obtain ⟨h4, h5, h6⟩ := h3
        subst h4; subst h5; subst h6
        obtain ⟨hi, hf⟩ := ih i' hrec
        exact ⟨by simpa using Nat.succ_lt_succ hi, hf⟩
    · rw [hfind] at h
      have h2 : (if (if bw = true then boundary = start' + hd.1.length else boundary = start')
          then some (0, hd.1, start')
          else Option.map (fun r => (r.1 + 1, r.2)) (scanPlaceholderHit line boundary bw rest)) =
          some (i, p, start) := h
      by_cases hc : (if bw = true then boundary = start' + hd.1.length else boundary = start')
      · rw [if_pos hc] at h2
        have h3 : (0, hd.1, start') = (i, p, start) := by injection h2
        simp only [Prod.mk.injEq] at h3
        obtain ⟨h4, h5, h6⟩ := h3
        subst h4; subst h5; subst h6
        exact ⟨by simp, hfind⟩
      · rw [if_neg hc] at h2
        rcases hrec : scanPlaceholderHit line boundary bw rest with _ | ⟨i', p', s'⟩
        · rw [hrec] at h2
          exact Option.noConfusion h2
        · rw [hrec] at h2
          have h3 : some (i' + 1, p', s') = some (i, p, start) := h2
          simp only [Option.some.injEq, Prod.mk.injEq] at h3
          obtain ⟨h4, h5, h6⟩ := h3
          subst h4; subst h5; subst h6
          obtain ⟨hi, hf⟩ := ih i' hrec
          exact ⟨by simpa using Nat.succ_lt_succ hi, hf⟩

/-! ### Field lemmas for the App operations -/

theorem cleanup_of_no_pending (a : App) (h : a.pending_pastes = []) :
    a.cleanup_pending_pastes = a := by
  unfold App.cleanup_pending_pastes
  rw [if_pos h]

theorem cleanup_input (a : App) : (a.cleanup_pending_pastes).input = a.input := by
  unfold App.cleanup_pending_pastes
  split <;> rfl

theorem cleanup_cursor (a : App) :
    (a.cleanup_pending_pastes).input_cursor = a.input_cursor := by
  unfold App.cleanup_pending_pastes
  split <;> rfl

theorem cleanup_pending_len (a : App) :
    (a.cleanup_pending_pastes).pending_pastes.length ≤ a.pending_pastes.length := by
  unfold App.cleanup_pending_pastes
  split
  · exact le_refl _
  · exact List.length_filter_le _ _

theorem cleanup_pending_of_empty (a : App) (h : a.pending_pastes = []) :
    (a.cleanup_pending_pastes).pending_pastes = [] := by
  rw [cleanup_of_no_pending a h]; exact h

theorem update_status_queue (a : App) :
    (a.update_status_message).message_queue = a.message_queue := rfl

theorem update_status_receiving (a : App) :
    (a.update_status_message).is_receiving_response = a.is_receiving_response := rfl

theorem finish_response_receiving (a : App) :
    (a.finish_response).is_receiving_response = false := rfl

theorem finish_response_queue (a : App) :
    (a.finish_response).message_queue = a.message_queue := by
  unfold App.finish_response
  split
  · dsimp only
    split <;> rfl
  · rfl

/-! ### Safety of the basic editing operations (claim C3) -/

theorem try_remove_of_no_pending (a : App) (bw : Bool) (h : a.pending_pastes = []) :
    a.try_remove_placeholder_at_cursor bw = some (false, a) := by
  unfold App.try_remove_placeholder_at_cursor
  rw [if_pos (Or.inr h)]

theorem insert_char_safe (a : App) (c : Char)
    (h1 : a.input_cursor ≤ a.input.length) (h2 : a.pending_pastes = []) :
    ∃ b, a.insert_char c = some b ∧ b.input_cursor ≤ b.input.length ∧ b.pending_pastes = [] := by
  unfold App.insert_char
  by_cases hge : a.input.length ≤ a.input_cursor
  · rw [if_pos hge]
    refine ⟨_, rfl, ?_, ?_⟩
    · rw [cleanup_cursor, cleanup_input]
    · exact cleanup_pending_of_empty _ h2
  · rw [if_neg hge]
    have hlt : a.input_cursor < a.input.length := lt_of_not_ge hge
    have hins := insertAtByte_char_to_byte a.input a.input_cursor c (le_of_lt hlt)
    dsimp only
    rw [hins]
    refine ⟨_, rfl, ?_, ?_⟩
    · rw [cleanup_cursor, cleanup_input]
      simp only [List.length_append, List.length_take, List.length_cons, List.length_drop]
      omega
    · exact cleanup_pending_of_empty _ h2

theorem backspace_safe (a : App)
    (h1 : a.input_cursor ≤ a.input.length) (h2 : a.pending_pastes = []) :
    ∃ b, a.backspace = some b ∧ b.input_cursor ≤ b.input.length ∧ b.pending_pastes = [] := by
  unfold App.backspace
  rw [try_remove_of_no_pending a true h2]
  simp only [Option.bind_eq_bind, Option.some_bind]
  by_cases hcur : 0 < a.input_cursor
  · have hlt : a.input_cursor - 1 < a.input.length := by omega
    have hrem := removeAtByte_char_to_byte a.input (a.input_cursor - 1) hlt
    rw [if_pos hcur]
    rw [hrem]
    refine ⟨_, rfl, ?_, ?_⟩
    · rw [cleanup_cursor, cleanup_input]
      simp only [List.length_append, List.length_take, List.length_drop]
      omega
    · exact cleanup_pending_of_empty _ h2
  · by_cases hml : a.input_cursor = 0 ∧ a.input_mode = .MultiLine ∧ a.multiline_buffer ≠ []
    · rw [if_neg hcur, if_pos hml]
      refine ⟨_, rfl, ?_, ?_⟩
      · rw [cleanup_cursor, cleanup_input]
        simp only [List.length_append]
        omega
      · exact cleanup_pending_of_empty _ h2
    · rw [if_neg hcur, if_neg hml]
      refine ⟨_, rfl, ?_, ?_⟩
      · rw [cleanup_cursor, cleanup_input]; exact h1
      · exact cleanup_pending_of_empty _ h2

theorem delete_safe (a : App)
    (h1 : a.input_cursor ≤ a.input.length) (h2 : a.pending_pastes = []) :
    ∃ b, a.delete = some b ∧ b.input_cursor ≤ b.input.length ∧ b.pending_pastes = [] := by
  unfold App.delete
  rw [try_remove_of_no_pending a false h2]
  simp only [Option.bind_eq_bind, Option.some_bind]
  by_cases hlt : a.input_cursor < a.input.length
  · have hrem := removeAtByte_char_to_byte a.input a.input_cursor hlt
    rw [if_pos hlt]
    rw [hrem]
    refine ⟨_, rfl, ?_, ?_⟩
    · rw [cleanup_cursor, cleanup_input]
      simp only [List.length_append, List.length_take, List.length_drop]
      omega
    · exact cleanup_pending_of_empty _ h2
  · rw [if_neg hlt]
    refine ⟨_, rfl, ?_, ?_⟩
    · rw [cleanup_cursor, cleanup_input]; exact h1
    · exact cleanup_pending_of_empty _ h2

theorem applyEditOp_safe (op : EditOp) (a : App)
    (h1 : a.input_cursor ≤ a.input.length) (h2 : a.pending_pastes = []) :
    ∃ b, applyEditOp op a = some b ∧ b.input_cursor ≤ b.input.length ∧ b.pending_pastes = [] := by
  cases op with
  | ins c => exact insert_char_safe a c h1 h2
  | back => exact backspace_safe a h1 h2
  | del => exact delete_safe a h1 h2

theorem applyEditOps_safe (ops : List EditOp) (a : App)
    (h1 : a.input_cursor ≤ a.input.length) (h2 : a.pending_pastes = []) :
    ∃ b, applyEditOps ops a = some b ∧ b.input_cursor ≤ b.input.length ∧
      b.pending_pastes = [] := by
  induction ops generalizing a with
  | nil => exact ⟨a, rfl, h1, h2⟩
  | cons op rest ih =>
    obtain ⟨b, hb, hb1, hb2⟩ := applyEditOp_safe op a h1 h2
    obtain ⟨d, hd, hd1, hd2⟩ := ih b hb1 hb2
    refine ⟨d, ?_, hd1, hd2⟩
    unfold applyEditOps
    rw [hb]
    exact hd

/-! ### The large-paste round trip (claim C4) -/

theorem natDigitsAux_digit (fuel n : Nat) (c : Char) (h : c ∈ natDigitsAux fuel n) :
    ∃ d, d < 10 ∧ c = digitChar d := by
  induction fuel generalizing n with
  | zero => simp [natDigitsAux] at h
  | succ f ih =>
    unfold natDigitsAux at h
    by_cases h10 : n < 10
    · rw [if_pos h10] at h
      simp only [List.mem_singleton] at h
      exact ⟨n, h10, h⟩
    · rw [if_neg h10] at h
      rcases List.mem_append.mp h with h' | h'
      · exact ih (n / 10) h'
      · simp only [List.mem_singleton] at h'
        exact ⟨n % 10, Nat.mod_lt _ (by norm_num), h'⟩

theorem digitChar_ne_newline (d : Nat) (h : d < 10) : digitChar d ≠ '\n' := by
  interval_cases d <;> decide

theorem natDigits_no_newline (n : Nat) : (natDigits n).any (fun d => d == '\n') = false := by
  rw [List.any_eq_false]
  intro c hc
  obtain ⟨d, hd, rfl⟩ := natDigitsAux_digit (n + 1) n c hc
  simpa using digitChar_ne_newline d hd

theorem pasteLargePlaceholder_no_newline (n : Nat) :
    rcontainsChar (pasteLargePlaceholder n) '\n' = false := by
  unfold rcontainsChar pasteLargePlaceholder
  simp only [List.any_append, natDigits_no_newline]
  decide

theorem paste_large_eq (content : RStr) (h : 200 < content.length) :
    app_paste_text initialApp content = some
      { initialApp with
        input := pasteLargePlaceholder content.length
        input_cursor := (pasteLargePlaceholder content.length).length
        pending_pastes := [(pasteLargePlaceholder content.length, content)] } := by
  have h50 : 50 < content.length := by omega
  unfold app_paste_text
  simp only [h, h50, if_true, pasteLargePlaceholder_no_newline, App.register_pending_paste]
  simp [insertStrAtByte, splitAtByte, char_to_byte_index, initialApp]

theorem expand_submit_single (a : App) (ph actual : RStr)
    (hmode : a.input_mode = .Normal) (hinp : a.input = ph)
    (hpend : a.pending_pastes = [(ph, actual)]) :
    a.expand_placeholders_for_submit = some (actual, { a with pending_pastes := [] }) := by
  have htext : a.get_input_text = ph := by
    unfold App.get_input_text
    rw [hmode]
    exact hinp
  have hloop : expandSubmitLoop [(ph, actual)] ph = some actual := by
    unfold expandSubmitLoop
    rw [find_substring_self]
    simp only [Option.bind_eq_bind, Option.some_bind,
      split_by_char_index_eq ph 0 (Nat.zero_le _),
      split_by_char_index_eq ph ph.length (le_refl _),
      List.take_zero, List.drop_zero, List.take_length, List.drop_length]
    simp [expandSubmitLoop]
  unfold App.expand_placeholders_for_submit
  rw [htext, hpend]
  rw [if_neg (by simp : ¬([(ph, actual)] : List (RStr × RStr)) = [])]
  simp only [Option.bind_eq_bind, Option.some_bind, hloop]
  rfl

theorem dequeue_empty (a : App) (h : a.message_queue = []) :
    a.dequeue_message = (none, a.update_status_message) := by
  unfold App.dequeue_message
  rw [h]

theorem dequeue_cons (a : App) (m : RStr) (rest : List RStr) (h : a.message_queue = m :: rest) :
    a.dequeue_message = (some m, ({ a with message_queue := rest }).update_status_message) := by
  unfold App.dequeue_message
  rw [h]

theorem try_queue_true (a : App) (s : RStr) (h : a.is_receiving_response = true) :
    a.try_queue_message s =
      (true, ({ a with message_queue := a.message_queue ++ [s] }).update_status_message) := by
  unfold App.try_queue_message
  rw [h]
  rfl

theorem try_queue_false (a : App) (s : RStr) (h : a.is_receiving_response = false) :
    a.try_queue_message s = (false, a) := by
  unfold App.try_queue_message
  rw [h]
  rfl

theorem dispatch_nonempty (st : LoopState) (s : RStr) (h : rustTrim s ≠ []) :
    dispatchUserInput st s =
      { app := (st.app.add_message (.User, s)).start_response,
        inflight := st.inflight + 1, dispatched := st.dispatched ++ [s] } := by
  unfold dispatchUserInput
  rw [if_neg h]

theorem fusedStep_userInput_busy (st : LoopState) (s : RStr)
    (h : st.app.is_receiving_response = true) :
    fusedStep st (.userInput s) =
      { st with app :=
        ({ st.app with message_queue := st.app.message_queue ++ [s] }).update_status_message } := by
  simp only [fusedStep]
  rw [try_queue_true st.app s h]
  rfl

theorem fusedStep_userInput_idle (st : LoopState) (s : RStr)
    (h : st.app.is_receiving_response = false) :
    fusedStep st (.userInput s) = dispatchUserInput st s := by
  simp only [fusedStep]
  rw [try_queue_false st.app s h]
  rfl

theorem fusedStep_done_empty (st : LoopState) (h : st.app.message_queue = []) :
    fusedStep st .streamDone =
      { st with app := (st.app.finish_response).update_status_message,
                inflight := st.inflight - 1 } := by
  simp only [fusedStep]
  have hq2 : (({ st with app := st.app.finish_response, inflight := st.inflight - 1 } : LoopState)).app.message_queue = [] := by
    show (st.app.finish_response).message_queue = []
    rw [finish_response_queue]
    exact h
  rw [dequeue_empty _ hq2]

theorem fusedStep_done_cons (st : LoopState) (m : RStr) (rest : List RStr)
    (h : st.app.message_queue = m :: rest) :
    fusedStep st .streamDone =
      dispatchUserInput
        { st with app := ({ st.app.finish_response with message_queue := rest }).update_status_message,
                  inflight := st.inflight - 1 } m := by
  simp only [fusedStep]
  have hq2 : (({ st with app := st.app.finish_response, inflight := st.inflight - 1 } : LoopState)).app.message_queue = m :: rest := by
    show (st.app.finish_response).message_queue = m :: rest
    rw [finish_response_queue]
    exact h
  rw [dequeue_cons _ m rest hq2]

theorem fusedStep_inv (st : LoopState) (e : ExtEv) (hI : QInv st)
    (hwf : WFhead st e) :
    QInv (fusedStep st e) ∧
      (fusedStep st e).dispatched ++ (fusedStep st e).app.message_queue =
        st.dispatched ++ st.app.message_queue ++ arrivals [e] := by
  obtain ⟨hI1, hI2, hI3, hI4⟩ := hI
  cases e with
  | userInput s =>
    have hts : rustTrim s ≠ [] := hwf
    cases hr : st.app.is_receiving_response with
    | true =>
      rw [fusedStep_userInput_busy st s hr]
      refine ⟨⟨hI1, ?_, ?_, ?_⟩, ?_⟩
      · show st.app.is_receiving_response = true ↔ st.inflight = 1
        exact hI2
      · intro hfalse
        have h2 : st.app.is_receiving_response = false := hfalse
        rw [hr] at h2
        exact Bool.noConfusion h2
      · intro m hm
        have hm2 : m ∈ st.app.message_queue ++ [s] := hm
        rcases List.mem_append.mp hm2 with h' | h'
        · exact hI4 m h'
        · simp only [List.mem_singleton] at h'
          subst h'
          exact hts
      · show st.dispatched ++ (st.app.message_queue ++ [s]) =
          st.dispatched ++ st.app.message_queue ++ arrivals [.userInput s]
        simp [arrivals]
    | false =>
      have hq : st.app.message_queue = [] := hI3 hr
      have hinf : st.inflight = 0 := by
        rcases Nat.eq_or_lt_of_le hI1 with h' | h'
        · exfalso
          have h2 : st.app.is_receiving_response = true := hI2.mpr h'
          rw [hr] at h2
          exact Bool.noConfusion h2
        · omega
      rw [fusedStep_userInput_idle st s hr, dispatch_nonempty st s hts]
      refine ⟨⟨?_, ?_, ?_, ?_⟩, ?_⟩
      · show st.inflight + 1 ≤ 1
        omega
      · show (st.app.add_message (.User, s)).start_response.is_receiving_response = true ↔
          st.inflight + 1 = 1
        constructor
        · intro _; omega
        · intro _; rfl
      · intro hfalse
        exact Bool.noConfusion hfalse
      · intro m hm
        have hm2 : m ∈ st.app.message_queue := hm
        rw [hq] at hm2
        simp at hm2
      · show (st.dispatched ++ [s]) ++ st.app.message_queue =
          st.dispatched ++ st.app.message_queue ++ arrivals [.userInput s]
        rw [hq]
        simp [arrivals]
  | streamDone =>
    have hr : st.app.is_receiving_response = true := hwf
    have hinf : st.inflight = 1 := hI2.mp hr
    rcases hq : st.app.message_queue with _ | ⟨m, rest⟩
    · rw [fusedStep_done_empty st hq]
      refine ⟨⟨?_, ?_, ?_, ?_⟩, ?_⟩
      · show st.inflight - 1 ≤ 1
        omega
      · show (st.app.finish_response).update_status_message.is_receiving_response = true ↔
          st.inflight - 1 = 1
        rw [update_status_receiving, finish_response_receiving]
        constructor
        · intro hfalse; exact Bool.noConfusion hfalse
        · intro h1; omega
      · intro _
        show (st.app.finish_response).update_status_message.message_queue = []
        rw [update_status_queue, finish_response_queue]
        exact hq
      · intro m hm
        have hm2 : m ∈ (st.app.finish_response).update_status_message.message_queue := hm
        rw [update_status_queue, finish_response_queue, hq] at hm2
        simp at hm2
      · show st.dispatched ++ (st.app.finish_response).update_status_message.message_queue =
          st.dispatched ++ [] ++ arrivals [.streamDone]
        rw [update_status_queue, finish_response_queue, hq]
        simp [arrivals]
    · have hmne : rustTrim m ≠ [] := hI4 m (by rw [hq]; exact List.mem_cons_self m rest)
      rw [fusedStep_done_cons st m rest hq, dispatch_nonempty _ m hmne]
      refine ⟨⟨?_, ?_, ?_, ?_⟩, ?_⟩
      · show st.inflight - 1 + 1 ≤ 1
        omega
      · show _ = true ↔ st.inflight - 1 + 1 = 1
        constructor
        · intro _; omega
        · intro _; rfl
      · intro hfalse
        exact Bool.noConfusion hfalse
      · intro m' hm'
        have hm2 : m' ∈ ({ st.app.finish_response with
          message_queue := rest } : App).update_status_message.message_queue := hm'
        rw [update_status_queue] at hm2
        exact hI4 m' (by rw [hq]; exact List.mem_cons_of_mem m hm2)
      · show (st.dispatched ++ [m]) ++ ({ st.app.finish_response with
            message_queue := rest } : App).update_status_message.message_queue =
          st.dispatched ++ (m :: rest) ++ arrivals [.streamDone]
        rw [update_status_queue]
        simp [arrivals]

theorem fusedRun_inv (evs : List ExtEv) (st : LoopState) (hI : QInv st)
    (hwf : WFtrace st evs = true) :
    QInv (fusedRun st evs) ∧
      (fusedRun st evs).dispatched ++ (fusedRun st evs).app.message_queue =
        st.dispatched ++ st.app.message_queue ++ arrivals evs := by
  induction evs generalizing st with
  | nil => exact ⟨hI, by simp [fusedRun, arrivals]⟩
  | cons e rest ih =>
    unfold WFtrace at hwf
    rw [Bool.and_eq_true] at hwf
    obtain ⟨hc, hrest⟩ := hwf
    have hwf1 : WFhead st e := by
      cases e with
      | userInput s =>
        show rustTrim s ≠ []
        exact of_decide_eq_true hc
      | streamDone =>
        show st.app.is_receiving_response = true
        exact hc
    obtain ⟨hI2, heq⟩ := fusedStep_inv st e hI hwf1
    obtain ⟨hI3, heq2⟩ := ih (fusedStep st e) hI2 hrest
    refine ⟨hI3, ?_⟩
    show (fusedRun (fusedStep st e) rest).dispatched ++
        (fusedRun (fusedStep st e) rest).app.message_queue = _
    rw [heq2, heq]
    cases e <;> simp [arrivals, List.append_assoc]

/-- C1: the claim states that `input_cursor` is always a valid character
index (0..=char count) after every composer mutation, including the
multiline-mode toggle.  The code violates this: leaving multi-line mode
via Ctrl+M sets `input_cursor = input.len()`, the UTF-8 byte length
(src/tui/handler.rs line 775), contradicting the field's own
documentation "Cursor position in input (character index)"
(src/tui/app.rs line 46).  Evaluated at the reachable state `c1State`
(type `é`, press Ctrl+M twice), the resulting cursor is 2 while the
character count is 1. -/
theorem C1_multiline_toggle_sets_byte_length_cursor :
    (handle_key_event c1State ctrlMKey 0).map
        (fun r => (r.1, r.2.1.input, r.2.1.input_cursor, r.2.1.input.length)) =
      some (false, ['é'], 2, 1) := by decide

/-- C3: for every finite sequence of `insert_char`/`backspace`/`delete`
operations applied to the initially empty editor, no operation panics
(every byte-level index lands on a character boundary, so each step
returns `some`) and the final cursor — hence, quantifying over all
prefixes, every intermediate cursor — is a valid character index. -/
theorem C3_edit_sequences_safe (ops : List EditOp) :
    ∃ b, applyEditOps ops initialApp = some b ∧ b.input_cursor ≤ b.input.length := by
  obtain ⟨b, hb, h1, _⟩ := applyEditOps_safe ops initialApp (by decide) (by decide)
  exact ⟨b, hb, h1⟩

/-- C4: pasting any string longer than 200 characters into the empty
composer replaces it with a compact placeholder and registers a
pending-paste mapping; an immediate `expand_placeholders_for_submit`
returns exactly the original pasted text and clears the mapping. -/
theorem C4_paste_roundtrip (content : RStr) (h : 200 < content.length) :
    ∃ a1 a2, app_paste_text initialApp content = some a1 ∧
      a1.expand_placeholders_for_submit = some (content, a2) ∧
      a2.pending_pastes = [] := by
  refine ⟨_, _, paste_large_eq content h,
    expand_submit_single _ (pasteLargePlaceholder content.length) content rfl rfl rfl, rfl⟩

/-- Witness for C4 at the concrete 201-character paste `'x' * 201`. -/
theorem C4_paste_roundtrip_witness :
    ∃ a1 a2, app_paste_text initialApp (List.replicate 201 'x') = some a1 ∧
      a1.expand_placeholders_for_submit = some (List.replicate 201 'x', a2) ∧
      a2.pending_pastes = [] :=
  C4_paste_roundtrip (List.replicate 201 'x') (by rw [List.length_replicate]; norm_num)

set_option maxRecDepth 8000

/-- C5 counterexample: the claim, as stated, quantifies over every state
in which a registered placeholder occurs with the cursor at its trailing
boundary.  After pasting the same 201-character text twice, the composer
holds two identical placeholder occurrences and the cursor sits at the
trailing boundary of the second; `try_remove_placeholder_at_cursor` only
ever inspects the FIRST occurrence of each registered placeholder, whose
end (22) differs from the cursor (44), so backspace removes a single
character (length 44 → 43) and both mappings survive — not the whole
22-character token as the claim requires. -/
theorem C5_counterexample :
    (c5TwicePasted.map (fun a => (a.input, a.input_cursor, a.pending_pastes.length)) =
        some (pasteLargePlaceholder 201 ++ pasteLargePlaceholder 201,
          2 * (pasteLargePlaceholder 201).length, 2)) ∧
      ((c5TwicePasted.bind App.backspace).map
          (fun b => (b.input.length, b.pending_pastes.length)) =
        some (2 * (pasteLargePlaceholder 201).length - 1, 2)) := by decide

/-- C5 amended: when the scan of `try_remove_placeholder_at_cursor`
(registration order, first occurrence of each placeholder, backspace
boundary = occurrence end) finds a hit `(i, p, start)`, one backspace
removes that whole placeholder occurrence and its mapping as a unit: the
composer shrinks by the placeholder's full character length, the cursor
moves to the occurrence start, and the pending-paste list shrinks. -/
theorem C5_amended_backspace_removes_scanned_placeholder (a : App) (i : Nat) (p : RStr)
    (start : Nat) (hinp : a.input ≠ [])
    (hscan : scanPlaceholderHit a.input a.input_cursor true a.pending_pastes =
      some (i, p, start)) :
    ∃ b, a.backspace = some b ∧ b.input.length + p.length = a.input.length ∧
      b.input_cursor = start ∧ b.pending_pastes.length < a.pending_pastes.length := by
  obtain ⟨hilt, hfind⟩ :=
    scanPlaceholderHit_sound a.input a.input_cursor true a.pending_pastes i p start hscan
  have hbound := find_substring_bound a.input p start hfind
  have hple : a.pending_pastes ≠ [] := by
    intro h0
    rw [h0] at hilt
    simp at hilt
  have htr : a.try_remove_placeholder_at_cursor true = some (true,
      { a with input := (a.input.take start) ++ ((a.input.drop start).drop p.length),
               input_cursor := start,
               pending_pastes := a.pending_pastes.eraseIdx i }) := by
    unfold App.try_remove_placeholder_at_cursor
    rw [if_neg (not_or.mpr ⟨hinp, hple⟩), hscan]
    dsimp only
    rw [split_by_char_index_eq a.input start (by omega)]
    simp only [Option.bind_eq_bind, Option.some_bind]
    rw [split_by_char_index_eq (a.input.drop start) p.length
      (by simp only [List.length_drop]; omega)]
    rfl
  unfold App.backspace
  rw [htr]
  simp only [Option.bind_eq_bind, Option.some_bind]
  refine ⟨_, rfl, ?_, ?_, ?_⟩
  · rw [cleanup_input]
    show ((a.input.take start) ++ ((a.input.drop start).drop p.length)).length + p.length =
      a.input.length
    simp only [List.length_append, List.length_take, List.length_drop]
    omega
  · rw [cleanup_cursor]
  · show (App.cleanup_pending_pastes _).pending_pastes.length < a.pending_pastes.length
    refine lt_of_le_of_lt (cleanup_pending_len _) ?_
    show (a.pending_pastes.eraseIdx i).length < a.pending_pastes.length
    rw [List.length_eraseIdx, if_pos hilt]
    have h3 : 0 < a.pending_pastes.length := List.length_pos.mpr hple
    omega

/-- Witness for the amended C5 at a concrete hit. -/
theorem C5_amended_witness :
    ∃ b, App.backspace c5WitnessApp = some b ∧
      b.input.length + ("AB".toList).length = c5WitnessApp.input.length ∧
      b.input_cursor = 0 ∧
      b.pending_pastes.length < c5WitnessApp.pending_pastes.length :=
  C5_amended_backspace_removes_scanned_placeholder c5WitnessApp 0 ("AB".toList) 0
    (by decide) (by decide)

/-- C2 counterexample: the claim promises FIFO order and at most one
in-flight request.  Realizable channel trace: `a` is dispatched; `m`
arrives during `a`'s stream and is queued; `a`'s completion is processed
(sending `ProcessNextMessage` to the channel tail); the input `x` — whose
`UserInput` event was already in the channel — is then processed while
the streaming flag is false and is dispatched immediately; finally
`ProcessNextMessage` dequeues `m` and dispatches it without re-checking
the flag.  Result: dispatch order `[a, x, m]` (the queued `m` arrived
before `x` but is dispatched after it) and two requests in flight. -/
theorem C2_counterexample :
    (runChannelFuel 10 loopInit c2Trace).dispatched =
        ["a".toList, "x".toList, "m".toList] ∧
      (runChannelFuel 10 loopInit c2Trace).inflight = 2 := by decide

/-- C2 amended: submitting while streaming enqueues and never dispatches;
a completion defers the dequeue to a `ProcessNextMessage` event.  When no
other dispatching event is processed between a completion and its
`ProcessNextMessage` (the fused semantics `fusedRun`), and every
completion arrives while streaming, at most one request is ever in
flight and dispatch order plus the remaining queue is exactly the arrival
order of the submitted messages (FIFO preserved). -/
theorem C2_amended_queue_discipline (evs : List ExtEv)
    (hwf : WFtrace loopInit evs = true) :
    (fusedRun loopInit evs).inflight ≤ 1 ∧
      (fusedRun loopInit evs).dispatched ++ (fusedRun loopInit evs).app.message_queue =
        arrivals evs := by
  have hI : QInv loopInit := by
    refine ⟨by decide, by decide, fun _ => rfl, ?_⟩
    intro m hm
    simp [loopInit, initialApp] at hm
  obtain ⟨⟨h1, _, _, _⟩, h2⟩ := fusedRun_inv evs loopInit hI hwf
  refine ⟨h1, ?_⟩
  simpa using h2

/-- Witness for the amended C2 on a concrete well-formed trace. -/
theorem C2_amended_witness :
    (fusedRun loopInit [ExtEv.userInput "hello".toList, ExtEv.streamDone]).inflight ≤ 1 ∧
      (fusedRun loopInit [ExtEv.userInput "hello".toList, ExtEv.streamDone]).dispatched ++
          (fusedRun loopInit [ExtEv.userInput "hello".toList,
            ExtEv.streamDone]).app.message_queue =
        arrivals [ExtEv.userInput "hello".toList, ExtEv.streamDone] :=
  C2_amended_queue_discipline [ExtEv.userInput "hello".toList, ExtEv.streamDone] (by decide)

/-- C6 (code bug): the claim — matching the task's own comment "If the
stream ended without explicitly sending Done (rare)" — expects one
formatted content event and a completion that dispatches the single next
queued message.  The task in fact always sends a second completion after
its loop exits, so with two queued messages a single failing request
drains BOTH: here the 401-style failure produces the formatted message
(with the authentication hint) as the displayed assistant message, but
`c6Run` shows the queue fully drained and both messages dispatched
concurrently, instead of drained by one. -/
theorem C6_stream_error_drains_two :
    containsSub (format_stream_error_message c6Err "gpt-4o".toList)
        "Set OPENAI_API_KEY in your env or add it to ~/.config/sgpt_rs/.sgptrc".toList
        = true ∧
      streamTaskEmits [Except.error c6Err] "gpt-4o".toList =
        [ChEv.llmContent (format_stream_error_message c6Err "gpt-4o".toList),
          ChEv.llmDone, ChEv.llmDone] ∧
      c6Run.app.messages.head? =
        some (Role.Assistant, format_stream_error_message c6Err "gpt-4o".toList) ∧
      c6Run.app.message_queue = [] ∧
      c6Run.dispatched = ["first queued".toList, "second queued".toList] := by decide

/-- C7 counterexample: the claim says invalid JSON produces a synthesized
failure result; the reader task in fact `continue`s on a parse failure,
producing no event at all. -/
theorem C7_counterexample_invalid_json_dropped : processInterpreterLine none = none := rfl

/-- C7 amended: the spec's example line routes to the variables-display
path with text listing `x: int`; every parsed object whose id string has
the `vars-` prefix routes to the variables path and every other id to the
generic execution-result path; a parsed object with neither `result` nor
`error` fields yields the synthesized `invalid_response` failure result;
an unparseable line is silently dropped (no event). -/
theorem C7_amended_routing :
    (processInterpreterLine (some c7ExampleJson) =
        some (RoutedEv.variablesSnapshot "Variables:\n- x: int\n".toList)) ∧
      (∀ j : Json,
        ("vars-".toList.isPrefixOf (((j.get "id".toList).bind Json.as_str).getD []) = true →
          ∃ t, processInterpreterLine (some j) = some (RoutedEv.variablesSnapshot t)) ∧
        ("vars-".toList.isPrefixOf (((j.get "id".toList).bind Json.as_str).getD []) = false →
          ∃ r, processInterpreterLine (some j) = some (RoutedEv.codeExecutionResult r))) ∧
      (∀ j : Json, j.get "result".toList = none → j.get "error".toList = none →
        "vars-".toList.isPrefixOf (((j.get "id".toList).bind Json.as_str).getD []) = false →
        processInterpreterLine (some j) = some (RoutedEv.codeExecutionResult
          (CodeExecResult.mk false [] ["invalid_response".toList] [] []))) ∧
      processInterpreterLine none = none := by
  refine ⟨by decide, ?_, ?_, rfl⟩
  · intro j
    constructor
    · intro h
      simp only [processInterpreterLine, h, if_true]
      exact ⟨_, rfl⟩
    · intro h
      simp only [processInterpreterLine, h, Bool.false_eq_true, if_false]
      exact ⟨_, rfl⟩
  · intro j h1 h2 h3
    simp only [processInterpreterLine, h1, h2, h3, Bool.false_eq_true, if_false]

/-- Witness for the amended C7: the routing facts applied at the example
line and at the empty object. -/
theorem C7_amended_witness :
    (∃ t, processInterpreterLine (some c7ExampleJson) =
        some (RoutedEv.variablesSnapshot t)) ∧
      processInterpreterLine (some (Json.obj [])) = some (RoutedEv.codeExecutionResult
        (CodeExecResult.mk false [] ["invalid_response".toList] [] [])) :=
  ⟨(C7_amended_routing.2.1 c7ExampleJson).1 (by decide),
    C7_amended_routing.2.2.1 (Json.obj []) rfl rfl (by decide)⟩

/-- C8: a second cancel within the 500 ms window (inclusive) terminates
the session; a second cancel outside the window, or a first cancel, only
clears the composer (input line, cursor, multiline buffer, input mode,
history cursor) and records the new timestamp. -/
theorem C8_double_cancel_window (a : App) (t now later : Nat)
    (h1 : a.last_ctrl_c_time = some t) (h2 : now - t ≤ 500) (h3 : 500 < later - t) :
    (a.handle_ctrl_c now).1 = true ∧
      ((a.handle_ctrl_c later).1 = false ∧
        (a.handle_ctrl_c later).2.input = [] ∧
        (a.handle_ctrl_c later).2.input_cursor = 0 ∧
        (a.handle_ctrl_c later).2.multiline_buffer = [] ∧
        (a.handle_ctrl_c later).2.input_mode = .Normal ∧
        (a.handle_ctrl_c later).2.history_index = none ∧
        (a.handle_ctrl_c later).2.last_ctrl_c_time = some later) ∧
      (∀ b : App, b.last_ctrl_c_time = none →
        (b.handle_ctrl_c now).1 = false ∧ (b.handle_ctrl_c now).2.input = [] ∧
          (b.handle_ctrl_c now).2.input_cursor = 0 ∧
          (b.handle_ctrl_c now).2.multiline_buffer = [] ∧
          (b.handle_ctrl_c now).2.input_mode = .Normal ∧
          (b.handle_ctrl_c now).2.history_index = none) := by
  have hlate : ¬(later - t ≤ 500) := by omega
  refine ⟨?_, ?_, ?_⟩
  · simp [App.handle_ctrl_c, h1, h2]
  · simp [App.handle_ctrl_c, h1, hlate]
  · intro b hb
    simp [App.handle_ctrl_c, hb]

/-- Witness for C8: timestamps 1000/1100 (inside the window) and 1601
(outside it). -/
theorem C8_double_cancel_window_witness :
    (c8App.handle_ctrl_c 1100).1 = true ∧
      ((c8App.handle_ctrl_c 1601).1 = false ∧
        (c8App.handle_ctrl_c 1601).2.input = [] ∧
        (c8App.handle_ctrl_c 1601).2.input_cursor = 0 ∧
        (c8App.handle_ctrl_c 1601).2.multiline_buffer = [] ∧
        (c8App.handle_ctrl_c 1601).2.input_mode = .Normal ∧
        (c8App.handle_ctrl_c 1601).2.history_index = none ∧
        (c8App.handle_ctrl_c 1601).2.last_ctrl_c_time = some 1601) ∧
      (∀ b : App, b.last_ctrl_c_time = none →
        (b.handle_ctrl_c 1100).1 = false ∧ (b.handle_ctrl_c 1100).2.input = [] ∧
          (b.handle_ctrl_c 1100).2.input_cursor = 0 ∧
          (b.handle_ctrl_c 1100).2.multiline_buffer = [] ∧
          (b.handle_ctrl_c 1100).2.input_mode = .Normal ∧
          (b.handle_ctrl_c 1100).2.history_index = none) :=
  C8_double_cancel_window c8App 1000 1100 1601 rfl (by norm_num) (by norm_num)

/-- C9: while any overlay is shown, processing any key event dismisses
the overlay and has no other effect: the result is exactly the same state
with `popup_state := None`, no quit, and no events sent. -/
theorem C9_overlay_key_only_dismisses (a : App) (k : KeyEvt) (now : Nat)
    (h : a.popup_state ≠ .none) :
    handle_key_event a k now = some (false, { a with popup_state := .none }, []) := by
  have hp : a.is_popup_shown = true := by
    unfold App.is_popup_shown
    exact decide_eq_true h
  simp only [handle_key_event, hp, if_true]
  rfl

/-- Witness for C9 at a concrete overlay state and the Enter key. -/
theorem C9_overlay_key_only_dismisses_witness :
    handle_key_event c9App { code := .enter } 0 =
      some (false, { c9App with popup_state := .none }, []) :=
  C9_overlay_key_only_dismisses c9App { code := .enter } 0 (by decide)

/-- C10 counterexample: with an overlay shown and an empty composer,
Ctrl+D does not terminate the session (it only dismisses the overlay), so
"terminates if and only if the composer is empty after trimming" fails. -/
theorem C10_counterexample :
    rustTrim c10State.get_input_text = [] ∧
      (handle_key_event c10State ctrlDKey 0).map (fun r => r.1) = some false := by decide

/-- C10 amended: when no overlay is shown, Ctrl+D terminates the session
if and only if the composer's full input text is empty after trimming;
otherwise it performs `App::delete` (forward delete of the character at
the cursor, or of a whole placeholder at its leading boundary) and the
session continues. -/
theorem C10_amended_ctrl_d (a : App) (now : Nat) (h : a.popup_state = .none) :
    (rustTrim a.get_input_text = [] → handle_key_event a ctrlDKey now = some (true, a, [])) ∧
      (rustTrim a.get_input_text ≠ [] →
        handle_key_event a ctrlDKey now = (a.delete).map (fun b => (false, b, []))) := by
  have hp : a.is_popup_shown = false := by
    unfold App.is_popup_shown
    simp [h]
  constructor
  · intro he
    simp [handle_key_event, hp, ctrlDKey, he]
  · intro hne
    simp [handle_key_event, hp, ctrlDKey, hne]

/-- Witness for the amended C10: the empty composer quits, a non-empty
composer deletes forward. -/
theorem C10_amended_ctrl_d_witness :
    handle_key_event initialApp ctrlDKey 0 = some (true, initialApp, []) ∧
      handle_key_event c10NonEmptyApp ctrlDKey 0 =
        (c10NonEmptyApp.delete).map (fun b => (false, b, [])) :=
  ⟨(C10_amended_ctrl_d initialApp 0 rfl).1 (by decide),
    (C10_amended_ctrl_d c10NonEmptyApp 0 rfl).2 (by decide)⟩
